import Mathlib

/-!
Shallow embedding of the share-link construction pipeline of the
singbox-users repository (src/singbox_users/share.py and
src/singbox_users/singbox_config.py).

Python byte strings are modelled as List Nat (each element < 256);
Python text strings that the proofs induct over are modelled as
List Char, other strings as Lean String.

External library primitives that are not part of the repository are
parameters of the embedding:
  - zlib.compress / the inverse deflate decompression (ContainerCodec);
  - nacl.bindings.crypto_scalarmult_base (X25519 base-point multiplication);
  - json.dumps (inner-profile serialization).
The Python standard library base64 module is modelled concretely below,
following the CPython binascii semantics (non-strict mode) that
base64.urlsafe_b64encode / base64.urlsafe_b64decode use.
-/

namespace SingboxUsers

/-- All elements of a modelled byte string are bytes. -/
def BytesOk (l : List Nat) : Prop := ∀ b ∈ l, b < 256

instance (l : List Nat) : Decidable (BytesOk l) := by
  unfold BytesOk; infer_instance

/-- URL-safe base64 alphabet, value to character
(base64.urlsafe_b64encode: standard alphabet with + and / replaced
by - and _). -/
def sextetToChar (s : Nat) : Char :=
  if s < 26 then Char.ofNat (65 + s)
  else if s < 52 then Char.ofNat (97 + (s - 26))
  else if s < 62 then Char.ofNat (48 + (s - 52))
  else if s = 62 then '-'
  else '_'

/-- URL-safe base64 alphabet, character to value.  Models the
urlsafe translation (- and _ mapped like + and /) composed with the
standard alphabet lookup, so both alphabets are accepted, anything
else is not a data character. -/
def charToSextet (c : Char) : Option Nat :=
  if 'A' ≤ c ∧ c ≤ 'Z' then some (c.toNat - 65)
  else if 'a' ≤ c ∧ c ≤ 'z' then some (c.toNat - 97 + 26)
  else if '0' ≤ c ∧ c ≤ '9' then some (c.toNat - 48 + 52)
  else if c = '+' ∨ c = '-' then some 62
  else if c = '/' ∨ c = '_' then some 63
  else none

/-- base64.urlsafe_b64encode on a byte string: groups of three bytes
become four alphabet characters; a trailing group of one or two bytes
is completed with = padding. -/
def b64encodeRaw : List Nat → List Char
  | [] => []
  | [a] =>
      [sextetToChar (a / 4), sextetToChar (a % 4 * 16), '=', '=']
  | [a, b] =>
      [sextetToChar (a / 4), sextetToChar (a % 4 * 16 + b / 16),
       sextetToChar (b % 16 * 4), '=']
  | a :: b :: c :: rest =>
      sextetToChar (a / 4) :: sextetToChar (a % 4 * 16 + b / 16) ::
      sextetToChar (b % 16 * 4 + c / 64) :: sextetToChar (c % 64) ::
      b64encodeRaw rest

/-- Python str.rstrip applied with "=": remove every trailing = sign. -/
def rstripEq (l : List Char) : List Char :=
  (l.reverse.dropWhile (fun c => c == '=')).reverse

/-- Pad with = signs to a multiple of four characters, the way the
repository re-pads before decoding: value + "=" * (-len(value) % 4). -/
def repad (l : List Char) : List Char :=
  l ++ List.replicate ((4 - l.length % 4) % 4) '='

/-- Core of CPython binascii.a2b_base64 in non-strict mode, which is what
base64.urlsafe_b64decode reaches after the urlsafe character translation:
characters outside the alphabet are skipped; an = sign is ignored before
two data characters of the current quad have been seen, and otherwise
counts towards padding, terminating the decode once the quad is
completed by padding; ending input in the middle of a quad is an error.
State: quad position (0-3), pending bits, padding count, output bytes. -/
def a2b : List Char → Nat → Nat → Nat → List Nat → Option (List Nat)
  | [], 0, _, _, acc => some acc
  | [], _ + 1, _, _, _ => none
  | c :: rest, qp, lc, pads, acc =>
      if c = '=' then
        if qp ≥ 2 then
          if qp + (pads + 1) ≥ 4 then some acc
          else a2b rest qp lc (pads + 1) acc
        else a2b rest qp lc pads acc
      else
        match charToSextet c with
        | none => a2b rest qp lc pads acc
        | some d =>
          match qp with
          | 0 => a2b rest 1 d pads acc
          | 1 => a2b rest 2 (d % 16) pads (acc ++ [lc * 4 + d / 16])
          | 2 => a2b rest 3 (d % 4) pads (acc ++ [lc * 16 + d / 4])
          | _ + 3 => a2b rest 0 0 pads (acc ++ [lc * 64 + d])

/-- base64.urlsafe_b64decode on a character list. -/
def b64decode (l : List Char) : Option (List Nat) := a2b l 0 0 0 []

/-- base64.urlsafe_b64encode(...).decode().rstrip("=") — the padding-free
URL-safe base64 rendering the repository uses everywhere. -/
def urlsafeNoPad (bs : List Nat) : List Char := rstripEq (b64encodeRaw bs)

theorem charToSextet_sextetToChar : ∀ s : Fin 64,
    charToSextet (sextetToChar s.val) = some s.val := by decide

theorem sextetToChar_ne_eq : ∀ s : Fin 64, sextetToChar s.val ≠ '=' := by
  decide

theorem charToSextet_round (s : Nat) (h : s < 64) :
    charToSextet (sextetToChar s) = some s :=
  charToSextet_sextetToChar ⟨s, h⟩

theorem sextetToChar_ne (s : Nat) (h : s < 64) : sextetToChar s ≠ '=' :=
  sextetToChar_ne_eq ⟨s, h⟩

theorem a2b_step0 (c : Char) (d : Nat) (hd : charToSextet c = some d)
    (hc : c ≠ '=') (rest : List Char) (lc pads : Nat) (acc : List Nat) :
    a2b (c :: rest) 0 lc pads acc = a2b rest 1 d pads acc := by
  simp [a2b, hc, hd]

theorem a2b_step1 (c : Char) (d : Nat) (hd : charToSextet c = some d)
    (hc : c ≠ '=') (rest : List Char) (lc pads : Nat) (acc : List Nat) :
    a2b (c :: rest) 1 lc pads acc =
      a2b rest 2 (d % 16) pads (acc ++ [lc * 4 + d / 16]) := by
  simp [a2b, hc, hd]

theorem a2b_step2 (c : Char) (d : Nat) (hd : charToSextet c = some d)
    (hc : c ≠ '=') (rest : List Char) (lc pads : Nat) (acc : List Nat) :
    a2b (c :: rest) 2 lc pads acc =
      a2b rest 3 (d % 4) pads (acc ++ [lc * 16 + d / 4]) := by
  simp [a2b, hc, hd]

theorem a2b_step3 (c : Char) (d : Nat) (hd : charToSextet c = some d)
    (hc : c ≠ '=') (rest : List Char) (lc pads : Nat) (acc : List Nat) :
    a2b (c :: rest) 3 lc pads acc =
      a2b rest 0 0 pads (acc ++ [lc * 64 + d]) := by
  simp [a2b, hc, hd]

theorem a2b_pad2_first (rest : List Char) (lc : Nat) (acc : List Nat) :
    a2b ('=' :: rest) 2 lc 0 acc = a2b rest 2 lc 1 acc := by
  simp [a2b]

theorem a2b_pad2_second (rest : List Char) (lc : Nat) (acc : List Nat) :
    a2b ('=' :: rest) 2 lc 1 acc = some acc := by
  simp [a2b]

theorem a2b_pad3 (rest : List Char) (lc pads : Nat) (acc : List Nat) :
    a2b ('=' :: rest) 3 lc pads acc = some acc := by
  simp only [a2b]
  rw [if_pos trivial, if_pos (show 3 ≥ 2 by omega),
    if_pos (show 3 + (pads + 1) ≥ 4 by omega)]

/-- Decoding an encoded byte string from a fresh quad returns the
accumulated output followed by those bytes. -/
theorem a2b_b64encodeRaw (bs : List Nat) (h : BytesOk bs) :
    ∀ acc : List Nat, a2b (b64encodeRaw bs) 0 0 0 acc = some (acc ++ bs) := by
  induction bs using b64encodeRaw.induct with
  | case1 =>
      intro acc
      simp [b64encodeRaw, a2b]
  | case2 a =>
      intro acc
      have ha : a < 256 := h a (by simp)
      have g : b64encodeRaw [a] =
          [sextetToChar (a / 4), sextetToChar (a % 4 * 16), '=', '='] := rfl
      rw [g,
        a2b_step0 _ _ (charToSextet_round _ (by omega))
          (sextetToChar_ne _ (by omega)),
        a2b_step1 _ _ (charToSextet_round _ (by omega))
          (sextetToChar_ne _ (by omega)),
        a2b_pad2_first, a2b_pad2_second]
      have hb : a / 4 * 4 + a % 4 * 16 / 16 = a := by omega
      rw [hb]
  | case3 a b =>
      intro acc
      have ha : a < 256 := h a (by simp)
      have hb : b < 256 := h b (by simp)
      have g : b64encodeRaw [a, b] =
          [sextetToChar (a / 4), sextetToChar (a % 4 * 16 + b / 16),
           sextetToChar (b % 16 * 4), '='] := rfl
      rw [g,
        a2b_step0 _ _ (charToSextet_round _ (by omega))
          (sextetToChar_ne _ (by omega)),
        a2b_step1 _ _ (charToSextet_round _ (by omega))
          (sextetToChar_ne _ (by omega)),
        a2b_step2 _ _ (charToSextet_round _ (by omega))
          (sextetToChar_ne _ (by omega)),
        a2b_pad3]
      have e1 : a / 4 * 4 + (a % 4 * 16 + b / 16) / 16 = a := by omega
      have e2 : (a % 4 * 16 + b / 16) % 16 * 16 + b % 16 * 4 / 4 = b := by
        omega
      have e2a : (a % 4 * 16 + b / 16) % 16 * 16 + b % 16 = b := by omega
      simp [e1, e2, e2a]
  | case4 a b c rest ih =>
      intro acc
      have ha : a < 256 := h a (by simp)
      have hb : b < 256 := h b (by simp)
      have hc : c < 256 := h c (by simp)
      have hrest : BytesOk rest := by
        intro x hx; exact h x (by simp [hx])
      have g : b64encodeRaw (a :: b :: c :: rest) =
          sextetToChar (a / 4) :: sextetToChar (a % 4 * 16 + b / 16) ::
          sextetToChar (b % 16 * 4 + c / 64) :: sextetToChar (c % 64) ::
          b64encodeRaw rest := rfl
      rw [g,
        a2b_step0 _ _ (charToSextet_round _ (by omega))
          (sextetToChar_ne _ (by omega)),
        a2b_step1 _ _ (charToSextet_round _ (by omega))
          (sextetToChar_ne _ (by omega)),
        a2b_step2 _ _ (charToSextet_round _ (by omega))
          (sextetToChar_ne _ (by omega)),
        a2b_step3 _ _ (charToSextet_round _ (by omega))
          (sextetToChar_ne _ (by omega)),
        ih hrest]
      have e1 : a / 4 * 4 + (a % 4 * 16 + b / 16) / 16 = a := by omega
      have e2 : (a % 4 * 16 + b / 16) % 16 * 16 +
          (b % 16 * 4 + c / 64) / 4 = b := by omega
      have e3 : (b % 16 * 4 + c / 64) % 4 * 64 + c % 64 = c := by omega
      simp [e1, e2, e3]

/-- b64decode inverts b64encodeRaw on byte strings. -/
theorem b64decode_b64encodeRaw (bs : List Nat) (h : BytesOk bs) :
    b64decode (b64encodeRaw bs) = some bs := by
  have := a2b_b64encodeRaw bs h []
  simpa [b64decode] using this

/-- The data characters of the encoding, without the = padding. -/
def b64body : List Nat → List Char
  | [] => []
  | [a] => [sextetToChar (a / 4), sextetToChar (a % 4 * 16)]
  | [a, b] =>
      [sextetToChar (a / 4), sextetToChar (a % 4 * 16 + b / 16),
       sextetToChar (b % 16 * 4)]
  | a :: b :: c :: rest =>
      sextetToChar (a / 4) :: sextetToChar (a % 4 * 16 + b / 16) ::
      sextetToChar (b % 16 * 4 + c / 64) :: sextetToChar (c % 64) ::
      b64body rest

/-- Number of = padding characters the encoding appends. -/
def b64padLen : List Nat → Nat
  | [] => 0
  | [_] => 2
  | [_, _] => 1
  | _ :: _ :: _ :: rest => b64padLen rest

theorem b64encodeRaw_eq_body_pad (bs : List Nat) :
    b64encodeRaw bs = b64body bs ++ List.replicate (b64padLen bs) '=' := by
  induction bs using b64encodeRaw.induct with
  | case1 => rfl
  | case2 a => rfl
  | case3 a b => rfl
  | case4 a b c rest ih =>
      simp [b64encodeRaw, b64body, b64padLen, ih]

theorem eq_not_mem_body (bs : List Nat) (h : BytesOk bs) :
    '=' ∉ b64body bs := by
  induction bs using b64body.induct with
  | case1 => simp [b64body]
  | case2 a =>
      have ha : a < 256 := h a (by simp)
      simp [b64body]
      exact ⟨Ne.symm (sextetToChar_ne _ (by omega)),
        Ne.symm (sextetToChar_ne _ (by omega))⟩
  | case3 a b =>
      have ha : a < 256 := h a (by simp)
      have hb : b < 256 := h b (by simp)
      simp [b64body]
      exact ⟨Ne.symm (sextetToChar_ne _ (by omega)),
        Ne.symm (sextetToChar_ne _ (by omega)),
        Ne.symm (sextetToChar_ne _ (by omega))⟩
  | case4 a b c rest ih =>
      have ha : a < 256 := h a (by simp)
      have hb : b < 256 := h b (by simp)
      have hc : c < 256 := h c (by simp)
      have hrest : BytesOk rest := fun x hx => h x (by simp [hx])
      simp [b64body]
      refine ⟨Ne.symm (sextetToChar_ne _ (by omega)),
        Ne.symm (sextetToChar_ne _ (by omega)),
        Ne.symm (sextetToChar_ne _ (by omega)),
        Ne.symm (sextetToChar_ne _ (by omega)), ?_⟩
      exact ih hrest

theorem dropWhile_eq_replicate_append (k : Nat) (l : List Char) :
    (List.replicate k '=' ++ l).dropWhile (fun c => c == '=') =
      l.dropWhile (fun c => c == '=') := by
  induction k with
  | zero => simp
  | succ n ih => simp [List.replicate_succ, ih]

theorem dropWhile_of_not_mem (l : List Char) (h : '=' ∉ l) :
    l.dropWhile (fun c => c == '=') = l := by
  cases l with
  | nil => rfl
  | cons c rest =>
      have : ¬ (c == '=') = true := by
        simp only [beq_iff_eq]
        intro hc; exact h (by simp [hc])
      simp [List.dropWhile_cons, this]

theorem rstripEq_body_pad (l : List Char) (k : Nat) (h : '=' ∉ l) :
    rstripEq (l ++ List.replicate k '=') = l := by
  unfold rstripEq
  rw [List.reverse_append, List.reverse_replicate,
    dropWhile_eq_replicate_append,
    dropWhile_of_not_mem _ (by simpa using h), List.reverse_reverse]

/-- Stripping the padding from an encoding leaves the data characters. -/
theorem rstripEq_b64encodeRaw (bs : List Nat) (h : BytesOk bs) :
    rstripEq (b64encodeRaw bs) = b64body bs := by
  rw [b64encodeRaw_eq_body_pad]
  exact rstripEq_body_pad _ _ (eq_not_mem_body bs h)

theorem b64body_mod (bs : List Nat) :
    (4 - (b64body bs).length % 4) % 4 = b64padLen bs := by
  induction bs using b64body.induct with
  | case1 => rfl
  | case2 a => rfl
  | case3 a b => rfl
  | case4 a b c rest ih =>
      have : (b64body (a :: b :: c :: rest)).length =
          4 + (b64body rest).length := by
        simp [b64body]; omega
      rw [this, b64padLen, ← ih]
      omega

/-- Re-padding the stripped encoding restores the full encoding. -/
theorem repad_rstripEq (bs : List Nat) (h : BytesOk bs) :
    repad (rstripEq (b64encodeRaw bs)) = b64encodeRaw bs := by
  rw [rstripEq_b64encodeRaw bs h]
  unfold repad
  rw [b64body_mod, b64encodeRaw_eq_body_pad]

/-- Round trip used by every token producer of the repository: re-padding
a stripped URL-safe encoding and decoding it recovers the bytes. -/
theorem b64decode_repad_urlsafeNoPad (bs : List Nat) (h : BytesOk bs) :
    b64decode (repad (urlsafeNoPad bs)) = some bs := by
  unfold urlsafeNoPad
  rw [repad_rstripEq bs h]
  exact b64decode_b64encodeRaw bs h

/-- The stripped encoding contains no = character. -/
theorem eq_not_mem_urlsafeNoPad (bs : List Nat) (h : BytesOk bs) :
    '=' ∉ urlsafeNoPad bs := by
  unfold urlsafeNoPad
  rw [rstripEq_b64encodeRaw bs h]
  exact eq_not_mem_body bs h

/-! share.py: qCompress container, vpn:// token, QR chunk framing. -/

/-- Module constant from config.py. -/
def DEFAULT_QR_CHUNK_SIZE : Nat := 850

/-- Module constant from config.py. -/
def MAX_QR_CHUNKS : Nat := 255

/-- Module constant from share.py. -/
def QR_MAGIC_QINT16 : Int := 1984

/-- struct.pack(">I", n): four big-endian bytes of an unsigned 32-bit
value (struct.error for n outside 0..2^32-1; theorems that depend on the
prefix value carry that bound as a hypothesis). -/
def packU32BE (n : Nat) : List Nat :=
  [n / 16777216 % 256, n / 65536 % 256, n / 256 % 256, n % 256]

/-- struct.pack(">h", n): two big-endian bytes of a signed 16-bit value
in two's complement (only applied to the in-range constant 1984 here). -/
def packI16BE (n : Int) : List Nat :=
  [(n % 65536).toNat / 256, (n % 65536).toNat % 256]

/-- struct.pack(">B", n): one byte (struct.error for n > 255; both call
sites are bounded by the chunks <= 255 guard). -/
def packU8 (n : Nat) : List Nat := [n % 256]

/-- qcompress from share.py.  zlib.compress is an external primitive and
is a parameter of the embedding; the function prepends the big-endian
4-byte length of the uncompressed payload (Qt qCompress layout). -/
def qcompress (compress : List Nat → List Nat) (payload : List Nat) :
    List Nat :=
  packU32BE payload.length ++ compress payload

/-- Modelled from the spec: the repository ships no decompressor; spec
section 4.4 defines the inverse as reading the 4-byte big-endian prefix,
deflate-decompressing the remainder (the parameter), and failing with
LengthMismatch when the decompressed length differs from the prefix. -/
def qdecompress (decompress : List Nat → List Nat) (p : List Nat) :
    Option (List Nat) :=
  match p with
  | n3 :: n2 :: n1 :: n0 :: rest =>
      let n := n3 * 16777216 + n2 * 65536 + n1 * 256 + n0
      let out := decompress rest
      if out.length = n then some out else none
  | _ => none

/-- vpn_url_from_qcompressed from share.py. -/
def vpn_url_from_qcompressed (qc : List Nat) : List Char :=
  "vpn://".data ++ urlsafeNoPad qc

/-- Python range(0, stop, step) for a positive step: the starts of the
slicing windows. -/
def pyRangeStep (stop step : Nat) : List Nat :=
  (List.range ((stop + step - 1) / step)).map (fun i => i * step)

/-- The error message raised by make_qr_chunks when the payload does not
fit in 255 chunks. -/
def tooManyChunksMessage (chunks chunk_size : Nat) : String :=
  "Too many chunks (" ++ toString chunks ++
    "); increase chunk size from " ++ toString chunk_size

/-- One binary QR frame of make_qr_chunks, before base64 encoding:
magic, totalChunks, index, slice length, slice bytes. -/
def qrFrame (chunks idx : Nat) (part : List Nat) : List Nat :=
  packI16BE QR_MAGIC_QINT16 ++ packU8 chunks ++ packU8 idx ++
    packU32BE part.length ++ part

/-- make_qr_chunks from share.py.  math.ceil(total / chunk_size) is the
ceiling division below; the Python for loop enumerates
range(0, total, chunk_size) and slices qc[start : start + chunk_size]. -/
def make_qr_chunks (qc : List Nat)
    (chunk_size : Nat := DEFAULT_QR_CHUNK_SIZE) :
    Except String (List (List Char)) :=
  let total := qc.length
  let chunks := max 1 ((total + chunk_size - 1) / chunk_size)
  if chunks > MAX_QR_CHUNKS then
    Except.error (tooManyChunksMessage chunks chunk_size)
  else
    Except.ok ((pyRangeStep total chunk_size).enum.map
      (fun p => urlsafeNoPad (qrFrame chunks p.1 ((qc.drop p.2).take chunk_size))))

theorem pyRangeStep_zero (step : Nat) : pyRangeStep 0 step = [] := by
  cases step with
  | zero => simp [pyRangeStep]
  | succ s =>
      unfold pyRangeStep
      rw [show 0 + (s + 1) - 1 = s by omega, Nat.div_eq_of_lt (by omega)]
      simp

theorem pyRangeStep_pos (stop step : Nat) (hstep : 1 ≤ step)
    (hstop : 1 ≤ stop) :
    pyRangeStep stop step =
      0 :: (pyRangeStep (stop - step) step).map (fun s => s + step) := by
  unfold pyRangeStep
  have hkey : (stop + step - 1) / step = (stop - step + step - 1) / step + 1 := by
    by_cases hle : stop ≤ step
    · have e1 : stop + step - 1 = (stop - 1) + step := by omega
      have e2 : stop - step = 0 := by omega
      rw [e1, Nat.add_div_right _ (by omega), Nat.div_eq_of_lt (by omega), e2,
        Nat.div_eq_of_lt (by omega)]
    · have e1 : stop + step - 1 = (stop - step + step - 1) + step := by omega
      rw [e1, Nat.add_div_right _ (by omega)]
  rw [hkey, List.range_succ_eq_map]
  simp only [List.map_cons, Nat.zero_mul, List.map_map]
  congr 1
  apply List.map_congr_left
  intro i _
  simp [Function.comp, Nat.succ_mul]

/-- Concatenating the window slices taken at the starts produced by
pyRangeStep recovers the whole list. -/
theorem join_window_slices (step : Nat) (hstep : 1 ≤ step) :
    ∀ (n : Nat) (l : List Nat), l.length ≤ n →
      ((pyRangeStep l.length step).map
        (fun s => (l.drop s).take step)).flatten = l := by
  intro n
  induction n with
  | zero =>
      intro l hl
      have : l = [] := List.eq_nil_of_length_eq_zero (by omega)
      subst this
      simp [pyRangeStep_zero]
  | succ n ih =>
      intro l hl
      cases l with
      | nil => simp [pyRangeStep_zero]
      | cons x xs =>
          have hlen : 1 ≤ (x :: xs).length := by simp
          rw [pyRangeStep_pos _ _ hstep hlen]
          simp only [List.map_cons, List.map_map, List.flatten_cons,
            List.drop_zero]
          have hmap :
              ((pyRangeStep ((x :: xs).length - step) step).map
                ((fun s => ((x :: xs).drop s).take step) ∘ fun s => s + step)) =
              ((pyRangeStep (((x :: xs).drop step).length) step).map
                (fun s => (((x :: xs).drop step).drop s).take step)) := by
            rw [List.length_drop]
            apply List.map_congr_left
            intro s _
            simp [Function.comp]
            rw [Nat.add_comm s step, ← List.drop_drop]
          have hlen2 : ((x :: xs).drop step).length ≤ n := by
            rw [List.length_drop, List.length_cons]
            have hc : (x :: xs).length = xs.length + 1 := rfl
            rw [hc] at hl
            omega
          rw [hmap, ih ((x :: xs).drop step) hlen2]
          exact List.take_append_drop step (x :: xs)



theorem bytesOk_append {l1 l2 : List Nat} (h1 : BytesOk l1)
    (h2 : BytesOk l2) : BytesOk (l1 ++ l2) := by
  intro b hb
  rcases List.mem_append.mp hb with h | h
  · exact h1 b h
  · exact h2 b h

theorem bytesOk_slice {l : List Nat} (h : BytesOk l) (s c : Nat) :
    BytesOk ((l.drop s).take c) := by
  intro b hb
  exact h b (List.mem_of_mem_drop (List.mem_of_mem_take hb))

theorem bytesOk_packU32BE (n : Nat) : BytesOk (packU32BE n) := by
  intro b hb
  simp [packU32BE] at hb
  rcases hb with h | h | h | h <;> omega

theorem bytesOk_packU8 (n : Nat) : BytesOk (packU8 n) := by
  intro b hb
  simp [packU8] at hb
  omega

theorem bytesOk_packI16BE (n : Int) : BytesOk (packI16BE n) := by
  intro b hb
  have hlt : (n % 65536).toNat < 65536 := by omega
  simp [packI16BE] at hb
  rcases hb with h | h <;> omega

theorem bytesOk_qrFrame (chunks idx : Nat) (part : List Nat)
    (h : BytesOk part) : BytesOk (qrFrame chunks idx part) := by
  unfold qrFrame
  exact bytesOk_append
    (bytesOk_append
      (bytesOk_append
        (bytesOk_append (bytesOk_packI16BE _) (bytesOk_packU8 _))
        (bytesOk_packU8 _))
      (bytesOk_packU32BE _)) h

/-- C4: reading back the 4-byte big-endian prefix of qcompress and
deflate-decompressing the remainder recovers exactly the input, for any
deflate implementation that round-trips, and the prefix is the
big-endian 4-byte unsigned length of the uncompressed input. -/
theorem qcompress_roundtrip (compress decompress : List Nat → List Nat)
    (hinv : ∀ b, decompress (compress b) = b)
    (b : List Nat) (hlen : b.length < 4294967296) :
    qdecompress decompress (qcompress compress b) = some b ∧
    (qcompress compress b).take 4 = packU32BE b.length := by
  constructor
  · show qdecompress decompress (packU32BE b.length ++ compress b) = some b
    simp only [packU32BE, List.cons_append, List.nil_append, qdecompress,
      hinv]
    rw [if_pos (by omega)]
  · show (packU32BE b.length ++ compress b).take 4 = packU32BE b.length
    have h4 : (packU32BE b.length).length = 4 := rfl
    rw [← h4, List.take_left]

theorem qcompress_roundtrip_witness :
    qdecompress id (qcompress id [1, 2, 3]) = some [1, 2, 3] ∧
    (qcompress id [1, 2, 3]).take 4 = packU32BE 3 := by
  have := qcompress_roundtrip id id (fun _ => rfl) [1, 2, 3] (by simp)
  simpa using this

/-- C8: the vpn:// token starts with the scheme, contains no = sign, and
stripping the scheme, re-padding to a multiple of four and decoding as
URL-safe base64 recovers the compressed payload. -/
theorem vpn_url_roundtrip (qc : List Nat) (h : BytesOk qc) :
    (vpn_url_from_qcompressed qc).take 6 = "vpn://".data ∧
    '=' ∉ vpn_url_from_qcompressed qc ∧
    b64decode (repad ((vpn_url_from_qcompressed qc).drop 6)) = some qc := by
  refine ⟨?_, ?_, ?_⟩
  · show ("vpn://".data ++ urlsafeNoPad qc).take 6 = "vpn://".data
    have h6 : ("vpn://".data).length = 6 := rfl
    rw [← h6, List.take_left]
  · show '=' ∉ "vpn://".data ++ urlsafeNoPad qc
    intro hmem
    rcases List.mem_append.mp hmem with hs | hs
    · revert hs; decide
    · exact eq_not_mem_urlsafeNoPad qc h hs
  · show b64decode (repad (("vpn://".data ++ urlsafeNoPad qc).drop 6)) =
      some qc
    have h6 : ("vpn://".data).length = 6 := rfl
    rw [← h6, List.drop_left]
    exact b64decode_repad_urlsafeNoPad qc h

theorem vpn_url_roundtrip_witness :
    (vpn_url_from_qcompressed [0, 255]).take 6 = "vpn://".data ∧
    '=' ∉ vpn_url_from_qcompressed [0, 255] ∧
    b64decode (repad ((vpn_url_from_qcompressed [0, 255]).drop 6)) =
      some [0, 255] :=
  vpn_url_roundtrip [0, 255] (by decide)

/-- C5: when the computed chunk count exceeds 255, make_qr_chunks fails
before emitting any frame, and the error message carries both the
computed count and the chunk size. -/
theorem make_qr_chunks_too_many (qc : List Nat) (chunk_size : Nat)
    (h : (qc.length + chunk_size - 1) / chunk_size > 255) :
    make_qr_chunks qc chunk_size =
      Except.error ("Too many chunks (" ++
        toString ((qc.length + chunk_size - 1) / chunk_size) ++
        "); increase chunk size from " ++ toString chunk_size) := by
  unfold make_qr_chunks
  dsimp only
  have hmax : max 1 ((qc.length + chunk_size - 1) / chunk_size) =
      (qc.length + chunk_size - 1) / chunk_size := by omega
  rw [hmax, if_pos (by simpa [MAX_QR_CHUNKS] using h)]
  rfl

theorem make_qr_chunks_too_many_witness :
    make_qr_chunks (List.replicate 256 0) 1 =
      Except.error
        "Too many chunks (256); increase chunk size from 1" := by
  have harith : ((List.replicate 256 (0 : Nat)).length + 1 - 1) / 1 = 256 := by
    simp only [List.length_replicate]
  have := make_qr_chunks_too_many (List.replicate 256 0) 1
    (by rw [harith]; omega)
  rw [harith] at this
  have hs : ("Too many chunks (" ++ toString (256 : Nat) ++
      "); increase chunk size from " ++ toString (1 : Nat)) =
      "Too many chunks (256); increase chunk size from 1" := rfl
  rw [hs] at this
  exact this

/-- C9: on the empty payload the computed chunk count is 1 but the
windowing loop runs zero times, so make_qr_chunks returns an empty frame
sequence. -/
theorem make_qr_chunks_empty (chunk_size : Nat) (h : 1 ≤ chunk_size) :
    max 1 ((([] : List Nat).length + chunk_size - 1) / chunk_size) = 1 ∧
    make_qr_chunks [] chunk_size = Except.ok [] := by
  have hdiv : (([] : List Nat).length + chunk_size - 1) / chunk_size = 0 := by
    simp only [List.length_nil, Nat.zero_add]
    exact Nat.div_eq_of_lt (by omega)
  refine ⟨by rw [hdiv]; decide, ?_⟩
  unfold make_qr_chunks
  dsimp only
  rw [hdiv]
  rw [if_neg (by simp [MAX_QR_CHUNKS])]
  simp [pyRangeStep_zero]

theorem make_qr_chunks_empty_witness :
    max 1 ((([] : List Nat).length + 850 - 1) / 850) = 1 ∧
    make_qr_chunks [] 850 = Except.ok [] :=
  make_qr_chunks_empty 850 (by omega)


/-- Inverting a successful make_qr_chunks call: the guard passed and the
tokens are the encoded frames of the window slices. -/
theorem make_qr_chunks_ok (qc : List Nat) (c : Nat) (ts : List (List Char))
    (hok : make_qr_chunks qc c = Except.ok ts) :
    max 1 ((qc.length + c - 1) / c) ≤ 255 ∧
    ts = (pyRangeStep qc.length c).enum.map
      (fun p => urlsafeNoPad (qrFrame (max 1 ((qc.length + c - 1) / c)) p.1
        ((qc.drop p.2).take c))) := by
  unfold make_qr_chunks at hok
  dsimp only at hok
  by_cases hgt : max 1 ((qc.length + c - 1) / c) > MAX_QR_CHUNKS
  · rw [if_pos hgt] at hok
    exact absurd hok (by simp)
  · rw [if_neg hgt] at hok
    refine ⟨by simpa [MAX_QR_CHUNKS] using hgt, ?_⟩
    exact ((Except.ok.injEq _ _).mp hok).symm

/-- Decoding the re-padded stripped encodings of a list of byte strings
recovers exactly those byte strings. -/
theorem mapM_b64decode_enc {α : Type} (g : α → List Nat) (l : List α)
    (h : ∀ a ∈ l, BytesOk (g a)) :
    (l.map (fun a => urlsafeNoPad (g a))).mapM
      (fun t => b64decode (repad t)) = some (l.map g) := by
  induction l with
  | nil => rfl
  | cons a rest ih =>
      simp only [List.map_cons, List.mapM_cons,
        b64decode_repad_urlsafeNoPad (g a) (h a (by simp)),
        ih (fun x hx => h x (by simp [hx]))]
      rfl

/-- The data field starts at offset 8 of a frame. -/
theorem qrFrame_drop8 (ch i : Nat) (p : List Nat) :
    (qrFrame ch i p).drop 8 = p := by
  have h8 : (packI16BE QR_MAGIC_QINT16 ++ packU8 ch ++ packU8 i ++
      packU32BE p.length).length = 8 := by
    simp [packI16BE, packU8, packU32BE]
  rw [qrFrame, ← h8, List.drop_left]



/-- Mapping a function of the entry alone over an enumeration. -/
theorem map_snd_enum {α β : Type} (f : α → β) (l : List α) :
    l.enum.map (fun p => f p.2) = l.map f := by
  rw [show (fun p : Nat × α => f p.2) = f ∘ Prod.snd from rfl,
    ← List.map_map, show l.enum = l.enumFrom 0 from rfl,
    List.enumFrom_map_snd]

/-- C1: for a nonempty payload and a positive chunk size, a successful
make_qr_chunks call returns exactly ceil(N/C) tokens, and decoding each
token (re-padded, URL-safe base64) and concatenating the data fields of
the frames in emission (ascending index) order reproduces the payload. -/
theorem make_qr_chunks_count_reassembly (qc : List Nat) (c : Nat)
    (hbytes : BytesOk qc) (_hpos : 0 < qc.length) (hc : 1 ≤ c)
    (ts : List (List Char)) (hok : make_qr_chunks qc c = Except.ok ts) :
    ts.length = (qc.length + c - 1) / c ∧
    ∃ frames : List (List Nat),
      ts.mapM (fun t => b64decode (repad t)) = some frames ∧
      (frames.map (fun f => f.drop 8)).flatten = qc := by
  obtain ⟨hle, hts⟩ := make_qr_chunks_ok qc c ts hok
  constructor
  · rw [hts]
    simp [pyRangeStep]
  · refine ⟨(pyRangeStep qc.length c).enum.map
      (fun p => qrFrame (max 1 ((qc.length + c - 1) / c)) p.1
        ((qc.drop p.2).take c)), ?_, ?_⟩
    · rw [hts]
      exact mapM_b64decode_enc
        (fun p : Nat × Nat => qrFrame (max 1 ((qc.length + c - 1) / c)) p.1
          ((qc.drop p.2).take c))
        ((pyRangeStep qc.length c).enum)
        (fun p _ => bytesOk_qrFrame (max 1 ((qc.length + c - 1) / c)) p.1
          ((qc.drop p.2).take c) (bytesOk_slice hbytes _ _))
    · rw [List.map_map]
      have hcomp : ((fun f => f.drop 8) ∘
          (fun p : Nat × Nat => qrFrame (max 1 ((qc.length + c - 1) / c)) p.1
            ((qc.drop p.2).take c))) =
          (fun p : Nat × Nat => (qc.drop p.2).take c) := by
        funext p
        show (qrFrame (max 1 ((qc.length + c - 1) / c)) p.1
          ((qc.drop p.2).take c)).drop 8 = (qc.drop p.2).take c
        exact qrFrame_drop8 _ _ _
      rw [hcomp]
      have h2 : (List.map (fun p : Nat × Nat => (qc.drop p.2).take c)
          (pyRangeStep qc.length c).enum) =
          (pyRangeStep qc.length c).map (fun s => (qc.drop s).take c) :=
        map_snd_enum (fun s => (qc.drop s).take c) (pyRangeStep qc.length c)
      rw [h2]
      exact join_window_slices c hc qc.length qc (Nat.le_refl _)



theorem pyRangeStep_length (stop step : Nat) :
    (pyRangeStep stop step).length = (stop + step - 1) / step := by
  simp [pyRangeStep]

/-- A frame with in-range count and index bytes, written out field by
field. -/
theorem qrFrame_explicit (ch i : Nat) (p : List Nat) (hch : ch ≤ 255)
    (hi : i ≤ 255) :
    qrFrame ch i p = 7 :: 192 :: ch :: i :: (packU32BE p.length ++ p) := by
  unfold qrFrame
  have h1 : packI16BE QR_MAGIC_QINT16 = [7, 192] := rfl
  have h2 : packU8 ch = [ch] := by
    unfold packU8; rw [Nat.mod_eq_of_lt (by omega)]
  have h3 : packU8 i = [i] := by
    unfold packU8; rw [Nat.mod_eq_of_lt (by omega)]
  rw [h1, h2, h3]
  simp

/-- C6: decoding the emitted tokens, every frame is the magic constant
1984 as big-endian int16, the totalChunks byte (the same computed count
on every frame), the 0-based index byte equal to the frame position, the
big-endian uint32 length of the data slice, then the data slice. -/
theorem make_qr_chunks_frame_fields (qc : List Nat) (c : Nat)
    (hbytes : BytesOk qc)
    (ts : List (List Char)) (hok : make_qr_chunks qc c = Except.ok ts) :
    ∃ frames : List (List Nat),
      ts.mapM (fun t => b64decode (repad t)) = some frames ∧
      ∀ i (hi : i < frames.length),
        ∃ part : List Nat,
          frames.get ⟨i, hi⟩ =
            7 :: 192 :: max 1 ((qc.length + c - 1) / c) :: i ::
              (packU32BE part.length ++ part) ∧
          (frames.get ⟨i, hi⟩).drop 8 = part := by
  obtain ⟨hle, hts⟩ := make_qr_chunks_ok qc c ts hok
  refine ⟨(pyRangeStep qc.length c).enum.map
      (fun p => qrFrame (max 1 ((qc.length + c - 1) / c)) p.1
        ((qc.drop p.2).take c)), ?_, ?_⟩
  · rw [hts]
    exact mapM_b64decode_enc
      (fun p : Nat × Nat => qrFrame (max 1 ((qc.length + c - 1) / c)) p.1
        ((qc.drop p.2).take c))
      ((pyRangeStep qc.length c).enum)
      (fun p _ => bytesOk_qrFrame (max 1 ((qc.length + c - 1) / c)) p.1
        ((qc.drop p.2).take c) (bytesOk_slice hbytes _ _))
  · intro i hi
    have hi2 : i < (pyRangeStep qc.length c).length := by
      simpa using hi
    have hcount : (pyRangeStep qc.length c).length ≤ 255 := by
      rw [pyRangeStep_length]
      exact Nat.le_trans (Nat.le_max_right 1 _) hle
    have hg : (((pyRangeStep qc.length c).enum.map
        (fun p => qrFrame (max 1 ((qc.length + c - 1) / c)) p.1
          ((qc.drop p.2).take c))).get ⟨i, hi⟩) =
        qrFrame (max 1 ((qc.length + c - 1) / c)) i
          ((qc.drop ((pyRangeStep qc.length c).get ⟨i, hi2⟩)).take c) := by
      rw [List.get_eq_getElem, List.getElem_map]
      simp only [show (pyRangeStep qc.length c).enum =
          (pyRangeStep qc.length c).enumFrom 0 from rfl,
        List.getElem_enumFrom]
      simp [List.get_eq_getElem]
    refine ⟨(qc.drop ((pyRangeStep qc.length c).get ⟨i, hi2⟩)).take c, ?_, ?_⟩
    · rw [hg, qrFrame_explicit _ _ _ hle (by omega)]
    · rw [hg, qrFrame_drop8]



theorem make_qr_chunks_count_reassembly_witness :
    make_qr_chunks [1, 2, 3] 2 =
      Except.ok ["B8ACAAAAAAIBAg".data, "B8ACAQAAAAED".data] ∧
    (["B8ACAAAAAAIBAg".data, "B8ACAQAAAAED".data].length =
      (([1, 2, 3] : List Nat).length + 2 - 1) / 2 ∧
     ∃ frames : List (List Nat),
       (["B8ACAAAAAAIBAg".data, "B8ACAQAAAAED".data] :
           List (List Char)).mapM (fun t => b64decode (repad t)) =
         some frames ∧
       (frames.map (fun f => f.drop 8)).flatten = [1, 2, 3]) :=
  ⟨by rfl, make_qr_chunks_count_reassembly [1, 2, 3] 2 (by decide)
    (by decide) (by decide) _ (by rfl)⟩

theorem make_qr_chunks_frame_fields_witness :
    ∃ frames : List (List Nat),
      (["B8ACAAAAAAIBAg".data, "B8ACAQAAAAED".data] :
          List (List Char)).mapM (fun t => b64decode (repad t)) =
        some frames ∧
      ∀ i (hi : i < frames.length),
        ∃ part : List Nat,
          frames.get ⟨i, hi⟩ =
            7 :: 192 :: max 1 ((([1, 2, 3] : List Nat).length + 2 - 1) / 2) ::
              i :: (packU32BE part.length ++ part) ∧
          (frames.get ⟨i, hi⟩).drop 8 = part :=
  make_qr_chunks_frame_fields [1, 2, 3] 2 (by decide) _ (by rfl)



/-! singbox_config.py: configuration model, port coercion, inbound
lookup, Reality parameter extraction, key derivation. -/

/-- Python values stored in the parsed JSON configuration. -/
inductive PyVal where
  | none_ : PyVal
  | bool : Bool → PyVal
  | int : Int → PyVal
  | str : String → PyVal
  | list : List PyVal → PyVal
  | dict : List (String × PyVal) → PyVal

/-- dict.get(k): first binding of the key, none when absent. -/
def dictGet (d : List (String × PyVal)) (k : String) : Option PyVal :=
  match d with
  | [] => none
  | (k1, v) :: rest => if k1 = k then some v else dictGet rest k

/-- Python truthiness of a configuration value. -/
def pyTruthy : PyVal → Bool
  | .none_ => false
  | .bool b => b
  | .int n => n != 0
  | .str s => !s.isEmpty
  | .list xs => !xs.isEmpty
  | .dict kvs => !kvs.isEmpty

/-- The pattern x = d.get(key) or emptyDict followed by attribute access
on x: a falsy value is replaced by the empty dict; a truthy non-dict
value would make the subsequent .get call raise at runtime, modelled as
an error. -/
def orDict (v : Option PyVal) : Except String (List (String × PyVal)) :=
  match v with
  | some w =>
      if pyTruthy w then
        match w with
        | .dict kvs => Except.ok kvs
        | _ => Except.error "AttributeError"
      else Except.ok []
  | none => Except.ok []

/-- The pattern reality.get("short_id") or emptyList feeding
_extract_short_id: a falsy value becomes the empty list; a string is
indexable (s[0] is its first character as a 1-character string); any
other truthy non-list value would raise on indexing, modelled as an
error. -/
def orList (v : Option PyVal) : Except String (List PyVal) :=
  match v with
  | some w =>
      if pyTruthy w then
        match w with
        | .list xs => Except.ok xs
        | .str s => Except.ok (s.data.map (fun c => PyVal.str (String.mk [c])))
        | _ => Except.error "TypeError"
      else Except.ok []
  | none => Except.ok []

/-- Whitespace removed by str.strip(); the ASCII whitespace characters
(the unicode whitespace Python also strips does not occur in the
modelled configurations). -/
def isPySpace (c : Char) : Bool :=
  c = ' ' || c = '\t' || c = '\n' || c = '\r' || c = '\x0b' || c = '\x0c'

/-- Python str.strip(). -/
def pyStrip (s : String) : String :=
  String.mk (((s.data.dropWhile isPySpace).reverse.dropWhile
    isPySpace).reverse)

/-- Digit accumulation of Python int(s, 10): a single underscore is
allowed between two digits, everything else must be an ASCII digit. -/
def parseDigitsCore : List Char → Nat → Option Nat
  | [], acc => some acc
  | c :: rest, acc =>
      if c = '_' then
        match rest with
        | c2 :: _ => if c2.isDigit then parseDigitsCore rest acc else none
        | [] => none
      else if c.isDigit then
        parseDigitsCore rest (acc * 10 + (c.toNat - 48))
      else none

/-- The digit part must start with a digit (a leading underscore is
rejected by Python int). -/
def parsePyDigits (l : List Char) : Option Nat :=
  match l with
  | c :: _ => if c.isDigit then parseDigitsCore l 0 else none
  | [] => none

/-- Python int(s, 10) on an already stripped string: optional sign, then
ASCII digits with optional single underscore separators. -/
def pyParseInt10 (s : String) : Option Int :=
  match s.data with
  | [] => none
  | c :: rest =>
      if c = '+' then (parsePyDigits rest).map (fun n => (n : Int))
      else if c = '-' then (parsePyDigits rest).map (fun n => -(n : Int))
      else (parsePyDigits (c :: rest)).map (fun n => (n : Int))

/-- _coerce_port from singbox_config.py.  isinstance(value, int) is also
true for Python booleans (bool is an int subclass), giving 0 or 1; a
string is stripped and parsed in base 10; anything else is None. -/
def _coerce_port (value : Option PyVal) : Option Int :=
  match value with
  | some (.bool b) => some (if b then 1 else 0)
  | some (.int n) => some n
  | some (.str s) =>
      let stripped := pyStrip s
      if stripped = "" then none else pyParseInt10 stripped
  | _ => none

/-- The configuration document: config.get("inbounds", []), each
inbound a parsed JSON object. -/
structure SingBoxConfig where
  inbounds : List (List (String × PyVal))

/-- ib.get(key) == s for a string literal s: true exactly when the key
holds that string. -/
def getIsStr (ib : List (String × PyVal)) (k v : String) : Bool :=
  match dictGet ib k with
  | some (.str s) => s = v
  | _ => false

/-- The first loop predicate: type is vless and the tag equals the
requested tag. -/
def isVlessWithTag (ib : List (String × PyVal)) (t : String) : Bool :=
  getIsStr ib "type" "vless" && getIsStr ib "tag" t

/-- find_vless_inbound from singbox_config.py: when a truthy tag is
given, the first loop looks for a VLESS inbound with that tag; on fall
through (tag falsy or no tagged match) the second loop takes the first
VLESS inbound; otherwise the lookup fails. -/
def find_vless_inbound (config : SingBoxConfig) (tag : Option String) :
    Except String Nat :=
  let inbounds := config.inbounds
  let tagged : Option Nat :=
    match tag with
    | some t =>
        if t.isEmpty then none
        else inbounds.findIdx? (fun ib => isVlessWithTag ib t)
    | none => none
  match tagged with
  | some i => Except.ok i
  | none =>
      match inbounds.findIdx? (fun ib => getIsStr ib "type" "vless") with
      | some i => Except.ok i
      | none => Except.error "No VLESS inbound found in config.json"

/-- _extract_short_id from singbox_config.py: fails on an empty list,
otherwise the first element stripped (a non-string first element would
raise at runtime, modelled as an error). -/
def _extract_short_id (ids : List PyVal) : Except String String :=
  match ids with
  | [] => Except.error "tls.reality.short_id must contain at least one value."
  | v :: _ =>
      match v with
      | .str s => Except.ok (pyStrip s)
      | _ => Except.error "AttributeError"

/-- _require_string from singbox_config.py. -/
def _require_string (value : Option PyVal) (label : String) :
    Except String String :=
  match value with
  | some (.str s) =>
      if !(pyStrip s).isEmpty then Except.ok (pyStrip s)
      else Except.error ("Missing " ++ label ++ " in config.json.")
  | _ => Except.error ("Missing " ++ label ++ " in config.json.")

/-- Module constant from singbox_config.py. -/
def REALITY_KEY_BYTES : Nat := 32

/-- _decode_base64 from singbox_config.py: pad with = to a multiple of
four (value + "=" * (-len(value) % 4)) and URL-safe base64 decode;
a decode error becomes none. -/
def _decode_base64 (value : String) : Option (List Nat) :=
  b64decode (value.data ++
    List.replicate ((4 - value.data.length % 4) % 4) '=')

/-- _derive_reality_public_key from singbox_config.py.
crypto_scalarmult_base (X25519 base-point multiplication from
nacl.bindings) is an external primitive and a parameter of the
embedding. -/
def _derive_reality_public_key (scalarmult_base : List Nat → List Nat)
    (private_key : String) : Except String String :=
  match _decode_base64 private_key with
  | none => Except.error "Reality key must be base64-encoded."
  | some scalar =>
      if scalar.length ≠ REALITY_KEY_BYTES then
        Except.error "Reality private key must decode to 32 bytes."
      else
        Except.ok (String.mk (urlsafeNoPad (scalarmult_base scalar)))

/-- Result record of extract_server_settings. -/
structure ServerSettings where
  port : Int
  server_name : String
  short_id : String
  public_key : String

/-- extract_server_settings from singbox_config.py: locate the VLESS
inbound, coerce its listen_port, descend tls -> reality -> handshake
(each defaulting to the empty dict when falsy), require the handshake
server name, take the first short id, require the private key and derive
the public key.  Every raised ValueError is an error result. -/
def extract_server_settings (scalarmult_base : List Nat → List Nat)
    (config : SingBoxConfig) (tag : Option String) :
    Except String ServerSettings :=
  match find_vless_inbound config tag with
  | Except.error e => Except.error e
  | Except.ok idx =>
    if hlt : idx < config.inbounds.length then
      let inbound := config.inbounds.get ⟨idx, hlt⟩
      match _coerce_port (dictGet inbound "listen_port") with
      | none => Except.error "listen_port is required on the VLESS inbound."
      | some port =>
        match orDict (dictGet inbound "tls") with
        | Except.error e => Except.error e
        | Except.ok tls =>
          match orDict (dictGet tls "reality") with
          | Except.error e => Except.error e
          | Except.ok reality =>
            match orDict (dictGet reality "handshake") with
            | Except.error e => Except.error e
            | Except.ok handshake =>
              match _require_string (dictGet handshake "server")
                  "tls.reality.handshake.server" with
              | Except.error e => Except.error e
              | Except.ok server_name =>
                match orList (dictGet reality "short_id") with
                | Except.error e => Except.error e
                | Except.ok short_ids =>
                  match _extract_short_id short_ids with
                  | Except.error e => Except.error e
                  | Except.ok short_id =>
                    match _require_string (dictGet reality "private_key")
                        "tls.reality.private_key" with
                    | Except.error e => Except.error e
                    | Except.ok private_key =>
                      match _derive_reality_public_key scalarmult_base
                          private_key with
                      | Except.error e => Except.error e
                      | Except.ok public_key =>
                        Except.ok ⟨port, server_name, short_id, public_key⟩
    else Except.error "VLESS inbound missing from configuration."

/-- C2: derivation pads the base64url input and decodes it, failing with
the InvalidKeyEncoding error exactly when decoding fails, failing with
the InvalidKeyLength error exactly when the decoded length is not 32,
and otherwise returning the base-point scalar multiplication of the
scalar encoded as URL-safe base64 with no padding characters. -/
theorem derive_reality_public_key_spec (sm : List Nat → List Nat)
    (k : String) :
    (_derive_reality_public_key sm k =
        Except.error "Reality key must be base64-encoded." ↔
      _decode_base64 k = none) ∧
    (_derive_reality_public_key sm k =
        Except.error "Reality private key must decode to 32 bytes." ↔
      ∃ s, _decode_base64 k = some s ∧ s.length ≠ 32) ∧
    (∀ s, _decode_base64 k = some s → s.length = 32 → BytesOk (sm s) →
      _derive_reality_public_key sm k =
        Except.ok (String.mk (urlsafeNoPad (sm s))) ∧
      '=' ∉ urlsafeNoPad (sm s)) := by
  unfold _derive_reality_public_key
  simp only [REALITY_KEY_BYTES]
  cases hdec : _decode_base64 k with
  | none =>
      refine ⟨by simp, ?_, ?_⟩
      · constructor
        · intro h
          injection h with h
          exact absurd h (by decide)
        · rintro ⟨s, hs, _⟩
          exact absurd hs (by simp)
      · intro s hs
        exact absurd hs (by simp)
  | some s0 =>
      dsimp only
      by_cases hlen : s0.length = 32
      · rw [if_neg (by omega)]
        refine ⟨?_, ?_, ?_⟩
        · constructor
          · intro h; exact absurd h (by simp)
          · intro h; exact absurd h (by simp)
        · constructor
          · intro h; exact absurd h (by simp)
          · rintro ⟨s, hs, hne⟩
            injection hs with hs
            subst hs
            exact absurd hlen hne
        · intro s hs h32 hb
          injection hs with hs
          subst hs
          exact ⟨rfl, eq_not_mem_urlsafeNoPad _ hb⟩
      · rw [if_pos (by omega)]
        refine ⟨?_, ?_, ?_⟩
        · constructor
          · intro h
            injection h with h
            exact absurd h.symm (by decide)
          · intro h; exact absurd h (by simp)
        · constructor
          · intro _
            exact ⟨s0, rfl, hlen⟩
          · intro _; rfl
        · intro s hs h32 _
          injection hs with hs
          subst hs
          exact absurd h32 hlen


theorem derive_reality_public_key_spec_witness :
    _derive_reality_public_key id (String.mk (List.replicate 43 'A')) =
      Except.ok (String.mk (urlsafeNoPad (id (List.replicate 32 0)))) ∧
    _derive_reality_public_key id (String.mk (List.replicate 42 'A')) =
      Except.error "Reality private key must decode to 32 bytes." ∧
    _derive_reality_public_key id "AAAAA" =
      Except.error "Reality key must be base64-encoded." :=
  ⟨((derive_reality_public_key_spec id
        (String.mk (List.replicate 43 'A'))).2.2
      (List.replicate 32 0) (by rfl) (by decide) (by decide)).1,
   (derive_reality_public_key_spec id
        (String.mk (List.replicate 42 'A'))).2.1.mpr
      ⟨List.replicate 31 0, by rfl, by decide⟩,
   (derive_reality_public_key_spec id "AAAAA").1.mpr (by rfl)⟩



/-- C3 counterexample: one VLESS inbound tagged "other", requested tag
"wanted": the lookup returns index 0 by falling back to the first VLESS
inbound although the selected entry's tag differs from the given tag,
instead of failing with the no-matching-inbound error. -/
theorem find_vless_inbound_fallback_counterexample :
    find_vless_inbound
        ⟨[[("type", PyVal.str "vless"), ("tag", PyVal.str "other")]]⟩
        (some "wanted") = Except.ok 0 ∧
    getIsStr [("type", PyVal.str "vless"), ("tag", PyVal.str "other")]
      "tag" "wanted" = false :=
  ⟨rfl, rfl⟩

/-- C3 amended: with a non-empty tag, a successful lookup returns an
entry that either is a VLESS inbound carrying the given tag, or — when
no entry carries both — is a VLESS inbound reached by falling back to
the first VLESS entry; the lookup fails with the no-matching-inbound
error exactly when the configuration has no VLESS inbound at all. -/
theorem find_vless_inbound_spec (config : SingBoxConfig) (t : String)
    (ht : t ≠ "") :
    (∀ i, find_vless_inbound config (some t) = Except.ok i →
      ∃ h : i < config.inbounds.length,
        isVlessWithTag (config.inbounds.get ⟨i, h⟩) t = true ∨
        ((∀ j (hj : j < config.inbounds.length),
            isVlessWithTag (config.inbounds.get ⟨j, hj⟩) t = false) ∧
          getIsStr (config.inbounds.get ⟨i, h⟩) "type" "vless" = true)) ∧
    (find_vless_inbound config (some t) =
        Except.error "No VLESS inbound found in config.json" ↔
      ∀ j (hj : j < config.inbounds.length),
        getIsStr (config.inbounds.get ⟨j, hj⟩) "type" "vless" = false) := by
  have hie : t.isEmpty = false := by
    cases he : t.isEmpty
    · rfl
    · exact absurd ((String.isEmpty_iff t).mp he) ht
  unfold find_vless_inbound
  dsimp only
  rw [hie]
  simp only [Bool.false_eq_true, if_false]
  cases hfind : config.inbounds.findIdx? (fun ib => isVlessWithTag ib t) with
  | some i =>
      obtain ⟨hi, hp, _⟩ := List.findIdx?_eq_some_iff_getElem.mp hfind
      constructor
      · intro i2 hok
        injection hok with hok
        subst hok
        exact ⟨hi, Or.inl (by simpa using hp)⟩
      · constructor
        · intro h; exact absurd h (by simp)
        · intro hall
          have hvless : getIsStr (config.inbounds.get ⟨i, hi⟩) "type"
              "vless" = true := by
            have := hp
            simp only [isVlessWithTag, Bool.and_eq_true] at this
            simpa [List.get_eq_getElem] using this.1
          rw [hall i hi] at hvless
          exact absurd hvless (by simp)
  | none =>
      cases hfind2 : config.inbounds.findIdx?
          (fun ib => getIsStr ib "type" "vless") with
      | some i =>
          obtain ⟨hi, hp, _⟩ := List.findIdx?_eq_some_iff_getElem.mp hfind2
          have hnone := List.findIdx?_eq_none_iff.mp hfind
          constructor
          · intro i2 hok
            injection hok with hok
            subst hok
            refine ⟨hi, Or.inr ⟨?_, by simpa using hp⟩⟩
            intro j hj
            exact hnone _ (List.get_mem config.inbounds j hj)
          · constructor
            · intro h; exact absurd h (by simp)
            · intro hall
              have := hall i hi
              rw [List.get_eq_getElem] at this
              rw [this] at hp
              exact absurd hp (by simp)
      | none =>
          have hnone2 := List.findIdx?_eq_none_iff.mp hfind2
          constructor
          · intro i2 hok
            exact absurd hok (by simp)
          · constructor
            · intro _ j hj
              exact hnone2 _ (List.get_mem config.inbounds j hj)
            · intro _; rfl



/-- A one-inbound configuration whose VLESS inbound carries the tag
"wanted". -/
def taggedVlessConfig : SingBoxConfig :=
  ⟨[[("type", PyVal.str "vless"), ("tag", PyVal.str "wanted")]]⟩

theorem find_vless_inbound_spec_witness :
    ∃ h : 0 < taggedVlessConfig.inbounds.length,
      isVlessWithTag (taggedVlessConfig.inbounds.get ⟨0, h⟩) "wanted" =
        true ∨
      ((∀ j (hj : j < taggedVlessConfig.inbounds.length),
          isVlessWithTag (taggedVlessConfig.inbounds.get ⟨j, hj⟩) "wanted" =
            false) ∧
        getIsStr (taggedVlessConfig.inbounds.get ⟨0, h⟩) "type" "vless" =
          true) :=
  (find_vless_inbound_spec taggedVlessConfig "wanted" (by decide)).1 0
    (by rfl)



/-! share.py: profile assembly (build_inner_share_config and
build_outer_share_config). -/

/-- Defaults from config.py. -/
def DEFAULT_SERVER_PORT : Int := 443

/-- Defaults from config.py. -/
def DEFAULT_SHARE_DESCRIPTION : String := "Proxy Server"

/-- Defaults from config.py. -/
def DEFAULT_SHARE_DNS1 : String := "1.1.1.1"

/-- Defaults from config.py. -/
def DEFAULT_SHARE_DNS2 : String := "1.0.0.1"

/-- Object member lookup on a JSON value. -/
def pvGet (v : PyVal) (k : String) : Option PyVal :=
  match v with
  | .dict kvs => dictGet kvs k
  | _ => none

/-- build_inner_share_config from share.py: the Amnezia inner xray
config for a single client. -/
def build_inner_share_config (server_ip client_id server_pubkey
    server_short_id : String) (port : Int) (server_name : String) :
    PyVal :=
  .dict [
    ("log", .dict [("loglevel", .str "error")]),
    ("inbounds", .list [
      .dict [
        ("listen", .str "127.0.0.1"),
        ("port", .int 10808),
        ("protocol", .str "socks"),
        ("settings", .dict [("udp", .bool true)])]]),
    ("outbounds", .list [
      .dict [
        ("protocol", .str "vless"),
        ("settings", .dict [
          ("vnext", .list [
            .dict [
              ("address", .str server_ip),
              ("port", .int port),
              ("users", .list [
                .dict [
                  ("id", .str client_id),
                  ("flow", .str "xtls-rprx-vision"),
                  ("encryption", .str "none")]])]])]),
        ("streamSettings", .dict [
          ("network", .str "tcp"),
          ("security", .str "reality"),
          ("realitySettings", .dict [
            ("fingerprint", .str "chrome"),
            ("serverName", .str server_name),
            ("publicKey", .str server_pubkey),
            ("shortId", .str server_short_id),
            ("spiderX", .str "")])])]])]

/-- build_outer_share_config from share.py.  json.dumps with its fixed
arguments (indent=4, ensure_ascii=False) is an external primitive and a
parameter of the embedding; the serialized inner config plus a trailing
newline is embedded as a string, never re-parsed. -/
def build_outer_share_config (dumps : PyVal → String)
    (server_ip client_id server_pubkey server_short_id : String)
    (description dns1 dns2 container : String) (port : Int)
    (server_name : String) : PyVal :=
  let inner := build_inner_share_config server_ip client_id server_pubkey
    server_short_id port server_name
  let last_config_str := dumps inner ++ "\n"
  .dict [
    ("containers", .list [
      .dict [
        ("container", .str container),
        ("xray", .dict [
          ("last_config", .str last_config_str),
          ("port", .str (toString port)),
          ("transport_proto", .str "tcp")])]]),
    ("defaultContainer", .str container),
    ("description", .str description),
    ("dns1", .str dns1),
    ("dns2", .str dns2),
    ("hostName", .str server_ip)]



/-- C7: the outer profile has exactly one container entry naming the
transport label, embedding the serialized inner JSON verbatim with a
trailing newline, the port as a string and the fixed "tcp" marker, plus
top-level defaultContainer, description, dns1, dns2 and hostName equal
to the server IP; the inner config has exactly one outbound user with
the client id and fixed flow/encryption markers, and a reality block
with fingerprint "chrome", serverName, publicKey, shortId and an empty
spiderX field. -/
theorem build_outer_share_config_spec (dumps : PyVal → String)
    (ip cid pk sid desc d1 d2 cont : String) (port : Int)
    (sname : String) :
    ∃ entry xray ob settings vnext0 user stream reality,
      pvGet (build_outer_share_config dumps ip cid pk sid desc d1 d2 cont
          port sname) "containers" = some (.list [entry]) ∧
      pvGet entry "container" = some (.str cont) ∧
      pvGet entry "xray" = some xray ∧
      pvGet xray "last_config" = some (.str
        (dumps (build_inner_share_config ip cid pk sid port sname) ++
          "\n")) ∧
      pvGet xray "port" = some (.str (toString port)) ∧
      pvGet xray "transport_proto" = some (.str "tcp") ∧
      pvGet (build_outer_share_config dumps ip cid pk sid desc d1 d2 cont
          port sname) "defaultContainer" = some (.str cont) ∧
      pvGet (build_outer_share_config dumps ip cid pk sid desc d1 d2 cont
          port sname) "description" = some (.str desc) ∧
      pvGet (build_outer_share_config dumps ip cid pk sid desc d1 d2 cont
          port sname) "dns1" = some (.str d1) ∧
      pvGet (build_outer_share_config dumps ip cid pk sid desc d1 d2 cont
          port sname) "dns2" = some (.str d2) ∧
      pvGet (build_outer_share_config dumps ip cid pk sid desc d1 d2 cont
          port sname) "hostName" = some (.str ip) ∧
      pvGet (build_inner_share_config ip cid pk sid port sname)
        "outbounds" = some (.list [ob]) ∧
      pvGet ob "protocol" = some (.str "vless") ∧
      pvGet ob "settings" = some settings ∧
      pvGet settings "vnext" = some (.list [vnext0]) ∧
      pvGet vnext0 "address" = some (.str ip) ∧
      pvGet vnext0 "port" = some (.int port) ∧
      pvGet vnext0 "users" = some (.list [user]) ∧
      pvGet user "id" = some (.str cid) ∧
      pvGet user "flow" = some (.str "xtls-rprx-vision") ∧
      pvGet user "encryption" = some (.str "none") ∧
      pvGet ob "streamSettings" = some stream ∧
      pvGet stream "network" = some (.str "tcp") ∧
      pvGet stream "security" = some (.str "reality") ∧
      pvGet stream "realitySettings" = some reality ∧
      pvGet reality "fingerprint" = some (.str "chrome") ∧
      pvGet reality "serverName" = some (.str sname) ∧
      pvGet reality "publicKey" = some (.str pk) ∧
      pvGet reality "shortId" = some (.str sid) ∧
      pvGet reality "spiderX" = some (.str "") :=
  ⟨_, _, _, _, _, _, _, _, rfl, rfl, rfl, rfl, rfl, rfl, rfl, rfl, rfl,
    rfl, rfl, rfl, rfl, rfl, rfl, rfl, rfl, rfl, rfl, rfl, rfl, rfl, rfl,
    rfl, rfl, rfl, rfl, rfl, rfl, rfl⟩



/-! Correctness of the decimal rendering consumed by pyParseInt10:
parsing the string produced by toString recovers the integer. -/

/-- The most-significant-first decimal digit characters of a natural
number. -/
def digitsOf (n : Nat) : List Char :=
  if _h : n < 10 then [Nat.digitChar n]
  else digitsOf (n / 10) ++ [Nat.digitChar (n % 10)]
  decreasing_by exact Nat.div_lt_self (by omega) (by omega)

theorem digitsOf_lt (n : Nat) (h : n < 10) :
    digitsOf n = [Nat.digitChar n] := by
  rw [digitsOf, dif_pos h]

theorem digitsOf_ge (n : Nat) (h : ¬n < 10) :
    digitsOf n = digitsOf (n / 10) ++ [Nat.digitChar (n % 10)] := by
  rw [digitsOf, dif_neg h]

theorem digitChar_isDigit_fin : ∀ d : Fin 10,
    (Nat.digitChar d.val).isDigit = true := by decide

theorem digitChar_toNat_fin : ∀ d : Fin 10,
    (Nat.digitChar d.val).toNat - 48 = d.val := by decide

theorem digitChar_isDigit (d : Nat) (h : d < 10) :
    (Nat.digitChar d).isDigit = true := digitChar_isDigit_fin ⟨d, h⟩

theorem digitChar_toNat (d : Nat) (h : d < 10) :
    (Nat.digitChar d).toNat - 48 = d := digitChar_toNat_fin ⟨d, h⟩

theorem isDigit_ne_underscore (c : Char) (h : c.isDigit = true) :
    c ≠ '_' := by
  intro he; subst he; exact absurd h (by decide)

theorem isDigit_ne_plus (c : Char) (h : c.isDigit = true) : c ≠ '+' := by
  intro he; subst he; exact absurd h (by decide)

theorem isDigit_ne_minus (c : Char) (h : c.isDigit = true) : c ≠ '-' := by
  intro he; subst he; exact absurd h (by decide)

theorem isDigit_not_space (c : Char) (h : c.isDigit = true) :
    isPySpace c = false := by
  cases hs : isPySpace c
  · rfl
  · simp only [isPySpace, Bool.or_eq_true, decide_eq_true_eq] at hs
    rcases hs with (((((rfl | rfl) | rfl) | rfl) | rfl) | rfl) <;>
      exact absurd h (by decide)

theorem parseDigitsCore_digit (c : Char) (hc : c.isDigit = true)
    (rest : List Char) (acc : Nat) :
    parseDigitsCore (c :: rest) acc =
      parseDigitsCore rest (acc * 10 + (c.toNat - 48)) := by
  simp [parseDigitsCore, isDigit_ne_underscore c hc, hc]

theorem parse_digitsOf (n : Nat) : ∀ (rest : List Char) (acc : Nat),
    parseDigitsCore (digitsOf n ++ rest) acc =
      parseDigitsCore rest (acc * 10 ^ (digitsOf n).length + n) := by
  induction n using Nat.strong_induction_on with
  | _ n ih =>
    intro rest acc
    by_cases h : n < 10
    · rw [digitsOf_lt n h]
      have := parseDigitsCore_digit (Nat.digitChar n)
        (digitChar_isDigit n h) rest acc
      simp only [List.cons_append, List.nil_append, this,
        digitChar_toNat n h, List.length_cons, List.length_nil]
      norm_num
    · rw [digitsOf_ge n h, List.append_assoc]
      rw [ih (n / 10) (Nat.div_lt_self (by omega) (by omega))]
      simp only [List.cons_append, List.nil_append]
      rw [parseDigitsCore_digit (Nat.digitChar (n % 10))
        (digitChar_isDigit (n % 10) (by omega)),
        digitChar_toNat (n % 10) (by omega)]
      have hlen : (digitsOf (n / 10) ++ [Nat.digitChar (n % 10)]).length =
          (digitsOf (n / 10)).length + 1 := by simp
      rw [hlen]
      congr 1
      have hn : n / 10 * 10 + n % 10 = n := by omega
      have expand : (acc * 10 ^ (digitsOf (n / 10)).length + n / 10) * 10 +
          n % 10 =
          acc * (10 ^ (digitsOf (n / 10)).length * 10) +
            (n / 10 * 10 + n % 10) := by ring
      rw [expand, hn, ← pow_succ]

theorem digitsOf_all_digits (n : Nat) :
    ∀ c ∈ digitsOf n, c.isDigit = true := by
  induction n using Nat.strong_induction_on with
  | _ n ih =>
    intro c hc
    by_cases h : n < 10
    · rw [digitsOf_lt n h] at hc
      simp at hc
      subst hc
      exact digitChar_isDigit n h
    · rw [digitsOf_ge n h] at hc
      rcases List.mem_append.mp hc with hm | hm
      · exact ih (n / 10) (Nat.div_lt_self (by omega) (by omega)) c hm
      · simp at hm
        subst hm
        exact digitChar_isDigit (n % 10) (by omega)

theorem digitsOf_head (n : Nat) :
    ∃ c l, digitsOf n = c :: l ∧ c.isDigit = true := by
  induction n using Nat.strong_induction_on with
  | _ n ih =>
    by_cases h : n < 10
    · exact ⟨Nat.digitChar n, [], digitsOf_lt n h, digitChar_isDigit n h⟩
    · obtain ⟨c, l, he, hd⟩ := ih (n / 10)
        (Nat.div_lt_self (by omega) (by omega))
      exact ⟨c, l ++ [Nat.digitChar (n % 10)],
        by rw [digitsOf_ge n h, he]; rfl, hd⟩

theorem parsePyDigits_digitsOf (n : Nat) :
    parsePyDigits (digitsOf n) = some n := by
  obtain ⟨c, l, he, hd⟩ := digitsOf_head n
  have hp := parse_digitsOf n [] 0
  rw [List.append_nil] at hp
  rw [he] at hp ⊢
  unfold parsePyDigits
  dsimp only
  rw [if_pos hd, hp]
  simp [parseDigitsCore]

theorem toDigitsCore_eq_digitsOf : ∀ (fuel n : Nat) (ds : List Char),
    n < 10 ^ (fuel + 1) →
    Nat.toDigitsCore 10 (fuel + 1) n ds = digitsOf n ++ ds := by
  intro fuel
  induction fuel with
  | zero =>
      intro n ds h
      have h10 : n < 10 := by simpa using h
      show (if n / 10 = 0 then Nat.digitChar (n % 10) :: ds
        else Nat.toDigitsCore 10 0 (n / 10)
          (Nat.digitChar (n % 10) :: ds)) = digitsOf n ++ ds
      rw [if_pos (by omega), digitsOf_lt n h10,
        Nat.mod_eq_of_lt h10]
      rfl
  | succ f ih =>
      intro n ds h
      by_cases h10 : n < 10
      · show (if n / 10 = 0 then Nat.digitChar (n % 10) :: ds
          else Nat.toDigitsCore 10 (f + 1) (n / 10)
            (Nat.digitChar (n % 10) :: ds)) = digitsOf n ++ ds
        rw [if_pos (by omega), digitsOf_lt n h10, Nat.mod_eq_of_lt h10]
        rfl
      · show (if n / 10 = 0 then Nat.digitChar (n % 10) :: ds
          else Nat.toDigitsCore 10 (f + 1) (n / 10)
            (Nat.digitChar (n % 10) :: ds)) = digitsOf n ++ ds
        have hdiv : n / 10 < 10 ^ (f + 1) := by
          rw [Nat.div_lt_iff_lt_mul (by omega)]
          calc n < 10 ^ (f + 1 + 1) := h
          _ = 10 ^ (f + 1) * 10 := by rw [pow_succ]
        rw [if_neg (by omega), ih (n / 10) _ hdiv, digitsOf_ge n h10,
          List.append_assoc]
        rfl

theorem repr_data (n : Nat) : (Nat.repr n).data = digitsOf n := by
  have hlt : n < 10 ^ (n + 1) :=
    Nat.lt_of_lt_of_le (Nat.lt_pow_self (by omega) n)
      (Nat.pow_le_pow_right (by omega) (by omega))
  show Nat.toDigitsCore 10 (n + 1) n [] = digitsOf n
  rw [toDigitsCore_eq_digitsOf n n [] hlt, List.append_nil]



theorem dropWhile_all_false {p : Char → Bool} {l : List Char}
    (h : ∀ c ∈ l, p c = false) : l.dropWhile p = l := by
  cases l with
  | nil => rfl
  | cons c rest =>
      exact List.dropWhile_cons_of_neg (by simp [h c (by simp)])

theorem pyStrip_of_nonspace (s : String)
    (h : ∀ c ∈ s.data, isPySpace c = false) : pyStrip s = s := by
  unfold pyStrip
  rw [dropWhile_all_false h,
    dropWhile_all_false (fun c hc => h c (List.mem_reverse.mp hc)),
    List.reverse_reverse]

theorem repr_nonspace (n : Nat) :
    ∀ c ∈ (Nat.repr n).data, isPySpace c = false := by
  intro c hc
  rw [repr_data] at hc
  exact isDigit_not_space c (digitsOf_all_digits n c hc)

/-- Parsing the decimal rendering of an integer recovers it. -/
theorem pyParseInt10_toString (m : Int) :
    pyParseInt10 (toString m) = some m := by
  cases m with
  | ofNat n =>
      show pyParseInt10 (Nat.repr n) = some (Int.ofNat n)
      obtain ⟨c, l, he, hd⟩ := digitsOf_head n
      have hdata : (Nat.repr n).data = c :: l := by rw [repr_data, he]
      unfold pyParseInt10
      rw [hdata]
      dsimp only
      rw [if_neg (isDigit_ne_plus c hd), if_neg (isDigit_ne_minus c hd)]
      rw [← he, parsePyDigits_digitsOf n]
      rfl
  | negSucc n =>
      show pyParseInt10 ("-" ++ Nat.repr (n + 1)) = some (Int.negSucc n)
      have hdata : ("-" ++ Nat.repr (n + 1)).data =
          '-' :: digitsOf (n + 1) := by
        rw [String.data_append, repr_data]
        rfl
      unfold pyParseInt10
      rw [hdata]
      dsimp only
      rw [if_neg (by decide), if_pos rfl, parsePyDigits_digitsOf (n + 1)]
      show some (-((n : Int) + 1)) = some (Int.negSucc n)
      rw [Int.negSucc_eq]

theorem toString_int_nonspace (m : Int) :
    ∀ c ∈ (toString m).data, isPySpace c = false := by
  cases m with
  | ofNat n =>
      exact repr_nonspace n
  | negSucc n =>
      intro c hc
      have hdata : (toString (Int.negSucc n)).data =
          '-' :: digitsOf (n + 1) := by
        show ("-" ++ Nat.repr (n + 1)).data = '-' :: digitsOf (n + 1)
        rw [String.data_append, repr_data]
        rfl
      rw [hdata] at hc
      rcases List.mem_cons.mp hc with rfl | hm
      · rfl
      · exact isDigit_not_space c (digitsOf_all_digits (n + 1) c hm)

theorem toString_int_ne_empty (m : Int) : toString m ≠ "" := by
  intro he
  cases m with
  | ofNat n =>
      obtain ⟨c, l, hd, _⟩ := digitsOf_head n
      have : (Nat.repr n).data = c :: l := by rw [repr_data, hd]
      have he2 : Nat.repr n = "" := he
      rw [he2] at this
      exact absurd this (by simp)
  | negSucc n =>
      have : (toString (Int.negSucc n)).data = '-' :: digitsOf (n + 1) := by
        show ("-" ++ Nat.repr (n + 1)).data = '-' :: digitsOf (n + 1)
        rw [String.data_append, repr_data]
        rfl
      rw [he] at this
      exact absurd this (by simp)

/-- The port coercion passes any Python integer through unchanged. -/
theorem coerce_port_int (m : Int) :
    _coerce_port (some (PyVal.int m)) = some m := rfl

/-- The port coercion parses the decimal rendering of any integer back
to that integer, with no range restriction. -/
theorem coerce_port_str (m : Int) :
    _coerce_port (some (PyVal.str (toString m))) = some m := by
  unfold _coerce_port
  dsimp only
  rw [pyStrip_of_nonspace _ (toString_int_nonspace m)]
  rw [if_neg (toString_int_ne_empty m)]
  exact pyParseInt10_toString m



/-- C10: extraction performs no range validation on the listen port:
whenever the selected VLESS inbound's listen_port coerces to an integer
n and the remaining Reality fields are valid, extraction succeeds and
returns n unchanged, and the coercion itself passes every Python
integer through unchanged and parses the decimal rendering of every
integer (including 0, negatives and values above 65535) back to it. -/
theorem extract_server_settings_port_passthrough
    (sm : List Nat → List Nat) (config : SingBoxConfig)
    (tag : Option String) (idx : Nat)
    (hfind : find_vless_inbound config tag = Except.ok idx)
    (hlt : idx < config.inbounds.length) (n : Int)
    (hport : _coerce_port (dictGet (config.inbounds.get ⟨idx, hlt⟩)
      "listen_port") = some n)
    (tls reality handshake : List (String × PyVal))
    (htls : orDict (dictGet (config.inbounds.get ⟨idx, hlt⟩) "tls") =
      Except.ok tls)
    (hreality : orDict (dictGet tls "reality") = Except.ok reality)
    (hhandshake : orDict (dictGet reality "handshake") =
      Except.ok handshake)
    (sname : String)
    (hserver : _require_string (dictGet handshake "server")
      "tls.reality.handshake.server" = Except.ok sname)
    (sids : List PyVal)
    (hsids : orList (dictGet reality "short_id") = Except.ok sids)
    (sid : String) (hsid : _extract_short_id sids = Except.ok sid)
    (pkey : String)
    (hpkey : _require_string (dictGet reality "private_key")
      "tls.reality.private_key" = Except.ok pkey)
    (pub : String)
    (hderive : _derive_reality_public_key sm pkey = Except.ok pub) :
    extract_server_settings sm config tag =
      Except.ok ⟨n, sname, sid, pub⟩ ∧
    (∀ m : Int, _coerce_port (some (PyVal.int m)) = some m) ∧
    (∀ m : Int, _coerce_port (some (PyVal.str (toString m))) = some m) := by
  refine ⟨?_, fun m => coerce_port_int m, fun m => coerce_port_str m⟩
  simp only [extract_server_settings, hfind, dif_pos hlt, hport, htls,
    hreality, hhandshake, hserver, hsids, hsid, hpkey, hderive]



/-- Reality sub-object of the port witness configuration. -/
def portTestReality : List (String × PyVal) :=
  [("handshake", PyVal.dict [("server", PyVal.str "example.com")]),
   ("short_id", PyVal.list [PyVal.str "abcd"]),
   ("private_key", PyVal.str (String.mk (List.replicate 43 'A')))]

/-- One VLESS inbound whose listen_port is 100000, above the TCP port
range. -/
def portTestConfig : SingBoxConfig :=
  ⟨[[("type", PyVal.str "vless"),
     ("tag", PyVal.str "vless-in"),
     ("listen_port", PyVal.int 100000),
     ("tls", PyVal.dict [("reality", PyVal.dict portTestReality)])]]⟩

theorem extract_server_settings_port_passthrough_witness :
    extract_server_settings id portTestConfig (some "vless-in") =
      Except.ok ⟨100000, "example.com", "abcd",
        String.mk (urlsafeNoPad (id (List.replicate 32 0)))⟩ ∧
    (∀ m : Int, _coerce_port (some (PyVal.int m)) = some m) ∧
    (∀ m : Int, _coerce_port (some (PyVal.str (toString m))) = some m) :=
  extract_server_settings_port_passthrough id portTestConfig
    (some "vless-in") 0 (by rfl) (by decide) 100000 (by rfl)
    [("reality", PyVal.dict portTestReality)] portTestReality
    [("server", PyVal.str "example.com")] (by rfl) (by rfl) (by rfl)
    "example.com" (by rfl) [PyVal.str "abcd"] (by rfl) "abcd" (by rfl)
    (String.mk (List.replicate 43 'A')) (by rfl)
    (String.mk (urlsafeNoPad (id (List.replicate 32 0)))) (by rfl)


end SingboxUsers
